import Mathlib

/-!
Verification of the `openai-api-mock` server (`src/main.go`) against its
natural-language specification.

The Go program is shallowly embedded below:

* pure data (structs `Message`, `ChatCompletionRequest`, `ChatCompletionChunk`,
  `ChatCompletionResponse`, `DeltaMessage`) becomes Lean structures;
* the streaming responder `handleStreamingResponse` becomes a pure function
  producing the list of emitted chunks (`streamFrames`) and, separately, the
  list of wire operations including writes, flushes and sleeps (`streamTrace`);
  the nondeterministic inputs (random id, wall-clock `created`) are passed as
  parameters, exactly as the Go code computes them once before the loop;
* `json.NewDecoder(..).Decode` (a Go standard-library collaborator) is embedded
  as a concrete JSON parser that parses exactly one JSON value from the byte
  stream and returns the unconsumed remainder, followed by a Go-style
  unmarshal into `ChatCompletionRequest` (missing fields keep zero values,
  `null` is a no-op, mismatched types fail, unknown keys are ignored,
  keys match case-insensitively);
* gzip (`compress/gzip`, also a standard-library collaborator) is embedded
  abstractly: a request body either is a well-formed gzip stream wrapping some
  payload or it is raw text that does not begin with a gzip header;
* the random draws `rand.Intn 10` of the fault-injection handlers become
  explicit `Fin 10` parameters, and the outcome distribution is computed by
  counting over the uniform product space.
-/

namespace OpenAIMock

/-! ## Data model (structs of `src/main.go`, lines 18-57) -/

/-- `Message` struct: `{role, content}`. -/
structure Message where
  role : String
  content : String
deriving DecidableEq, Repr

/-- `ChatCompletionRequest` struct: `{model, messages, stream}`. -/
structure ChatCompletionRequest where
  model : String
  messages : List Message
  stream : Bool
deriving DecidableEq, Repr

/-- One element of `ChatCompletionResponse.Choices`. -/
structure RespChoice where
  index : Nat
  message : Message
deriving DecidableEq, Repr

/-- `ChatCompletionResponse` struct (non-streaming envelope). -/
structure ChatCompletionResponse where
  id : String
  object : String
  created : Int
  model : String
  choices : List RespChoice
deriving DecidableEq, Repr

/-- `DeltaMessage` struct; Go zero values are empty strings. -/
structure DeltaMessage where
  role : String := ""
  content : String := ""
deriving DecidableEq, Repr

/-- One element of `ChatCompletionChunk.Choices`; `LogProbs interface\x7b\x7d`
is always `nil` in the source, embedded as `Option Unit`. -/
structure ChunkChoice where
  index : Nat
  delta : DeltaMessage
  logprobs : Option Unit
  finishReason : String
deriving DecidableEq, Repr

/-- `ChatCompletionChunk` struct (streaming frame). -/
structure ChatCompletionChunk where
  id : String
  object : String
  created : Int
  model : String
  systemFingerprint : String
  choices : List ChunkChoice
deriving DecidableEq, Repr

/-! ## Reply generator (`generateResponse`, line 255) -/

/-- `generateResponse`: ignores the messages, returns the fixed reply. -/
def generateResponse (messages : List Message) : String :=
  "who are you? and what are you doing here? and what is your purpose?"

/-! ## Streaming responder (`handleStreamingResponse`, lines 148-244)

The loop at lines 184-191 walks `runes := []rune(response)` in steps of two:
iteration `i` emits `runes[i:i+2]` when `i+1 < len(runes)` and `runes[i:]`
(a single rune) otherwise.  `chunkPairs` is that loop: Go `[]rune` is the
sequence of Unicode code points of the string, i.e. `String.data`. -/

/-- The successive one-or-two-code-point content pieces of the reply. -/
def chunkPairs : List Char → List String
  | [] => []
  | [c] => [String.mk [c]]
  | c1 :: c2 :: rest => String.mk [c1, c2] :: chunkPairs rest

/-- Initial chunk with role-only delta (lines 158-181). -/
def roleChunk (model id : String) (created : Int) : ChatCompletionChunk :=
  { id := id
    object := "chat.completion.chunk"
    created := created
    model := model
    systemFingerprint := "fp_44709d6fcb"
    choices := [{ index := 0
                  delta := { role := "assistant" }
                  logprobs := none
                  finishReason := "" }] }

/-- Content-bearing chunk for one piece of the reply (lines 193-216). -/
def contentChunk (model id : String) (created : Int) (content : String) :
    ChatCompletionChunk :=
  { id := id
    object := "chat.completion.chunk"
    created := created
    model := model
    systemFingerprint := "fp_44709d6fcb"
    choices := [{ index := 0
                  delta := { content := content }
                  logprobs := none
                  finishReason := "" }] }

/-- Final chunk with empty delta and finish_reason "stop" (lines 221-242). -/
def stopChunk (model id : String) (created : Int) : ChatCompletionChunk :=
  { id := id
    object := "chat.completion.chunk"
    created := created
    model := model
    systemFingerprint := "fp_44709d6fcb"
    choices := [{ index := 0
                  delta := {}
                  logprobs := none
                  finishReason := "stop" }] }

/-- The sequence of structured frames emitted by `handleStreamingResponse`
for a given reply: role frame, content frames, stop frame (the trailing
literal terminator is part of the wire trace, not a structured frame). -/
def streamFrames (model id : String) (created : Int) (response : String) :
    List ChatCompletionChunk :=
  roleChunk model id created ::
    ((chunkPairs response.data).map (contentChunk model id created) ++
      [stopChunk model id created])

/-! ## Wire-level trace (`writeChunk`, lines 246-253, and the terminator write
at line 243)

`writeChunk` serializes the chunk with `toJSON` (Go `json.Marshal`: fields in
declaration order, `omitempty` on the delta fields and on `finish_reason`,
`logprobs` always `null`, strings escaped with Go's HTML-escaping encoder),
writes `"data: " + json + "\n\n"`, and flushes when the `ResponseWriter`
supports `http.Flusher`.  The final `data: [DONE]` terminator at line 243 is
written with a plain `w.Write`, outside `writeChunk`. -/

/-- Lower-case hex digit, as emitted by Go's JSON encoder. -/
def hexDigit (n : Nat) : Char :=
  if n < 10 then Char.ofNat (48 + n) else Char.ofNat (87 + n)

/-- Go `encoding/json` string escaping (default encoder: HTML escaping on). -/
def escapeChar (c : Char) : List Char :=
  if c = '"' then ['\\', '"']
  else if c = '\\' then ['\\', '\\']
  else if c = '\n' then ['\\', 'n']
  else if c = '\r' then ['\\', 'r']
  else if c = '\t' then ['\\', 't']
  else if c = '<' then '\\' :: 'u' :: '0' :: '0' :: '3' :: ['c']
  else if c = '>' then '\\' :: 'u' :: '0' :: '0' :: '3' :: ['e']
  else if c = '&' then '\\' :: 'u' :: '0' :: '0' :: '2' :: ['6']
  else if c.toNat < 0x20 then
    '\\' :: 'u' :: '0' :: '0' :: hexDigit (c.toNat / 16) :: [hexDigit (c.toNat % 16)]
  else if c.toNat = 0x2028 then '\\' :: 'u' :: '2' :: '0' :: '2' :: ['8']
  else if c.toNat = 0x2029 then '\\' :: 'u' :: '2' :: '0' :: '2' :: ['9']
  else [c]

/-- JSON string literal for `s`. -/
def quoteJson (s : String) : String :=
  String.mk ('"' :: ((s.data.map escapeChar).flatten ++ ['"']))

/-- Comma-separated concatenation. -/
def joinComma : List String → String
  | [] => ""
  | [s] => s
  | s :: rest => s ++ "," ++ joinComma rest

/-- `json.Marshal` of a `DeltaMessage` (both fields `omitempty`). -/
def renderDelta (d : DeltaMessage) : String :=
  "\x7b" ++
    joinComma
      ((if d.role = "" then [] else ["\"role\":" ++ quoteJson d.role]) ++
       (if d.content = "" then [] else ["\"content\":" ++ quoteJson d.content])) ++
  "\x7d"

/-- `json.Marshal` of one chunk choice (`finish_reason` is `omitempty`). -/
def renderChoice (ch : ChunkChoice) : String :=
  "\x7b\"index\":" ++ toString ch.index ++
    ",\"delta\":" ++ renderDelta ch.delta ++
    ",\"logprobs\":null" ++
    (if ch.finishReason = "" then "" else ",\"finish_reason\":" ++ quoteJson ch.finishReason) ++
  "\x7d"

/-- `toJSON` (line 272) applied to a `ChatCompletionChunk`. -/
def renderChunkJson (c : ChatCompletionChunk) : String :=
  "\x7b\"id\":" ++ quoteJson c.id ++
    ",\"object\":" ++ quoteJson c.object ++
    ",\"created\":" ++ toString c.created ++
    ",\"model\":" ++ quoteJson c.model ++
    ",\"system_fingerprint\":" ++ quoteJson c.systemFingerprint ++
    ",\"choices\":[" ++ joinComma (c.choices.map renderChoice) ++ "]\x7d"

/-- One observable operation on the HTTP response transport. -/
inductive WireOp where
  | write (data : String)
  | flush
  | sleep (ms : Nat)
deriving DecidableEq, Repr

/-- `writeChunk` (lines 246-253): write the framed chunk, then flush when the
transport supports flushing. -/
def writeChunkOps (flusher : Bool) (c : ChatCompletionChunk) : List WireOp :=
  WireOp.write ("data: " ++ renderChunkJson c ++ "\n\n") ::
    (if flusher then [WireOp.flush] else [])

/-- The full wire trace of `handleStreamingResponse` (lines 148-244): role
chunk, then per piece a content chunk followed by the 50 ms sleep, then the
stop chunk, then the raw `data: [DONE]` write (line 243) with no flush. -/
def streamTrace (flusher : Bool) (model id : String) (created : Int)
    (response : String) : List WireOp :=
  writeChunkOps flusher (roleChunk model id created) ++
    ((chunkPairs response.data).flatMap (fun s =>
       writeChunkOps flusher (contentChunk model id created s) ++ [WireOp.sleep 50])) ++
    writeChunkOps flusher (stopChunk model id created) ++
    [WireOp.write "data: [DONE]\n\n"]

/-- Decides whether every `write` in the trace is immediately followed by a
`flush`. -/
def writesFlushed : List WireOp → Bool
  | [] => true
  | WireOp.write _ :: rest =>
    match rest with
    | WireOp.flush :: rest2 => writesFlushed rest2
    | _ => false
  | WireOp.flush :: rest => writesFlushed rest
  | WireOp.sleep _ :: rest => writesFlushed rest

/-! ## Non-streaming responder (`handleNonStreamingResponse`, lines 124-146)

The random id suffix and the wall-clock timestamp are inputs of the
embedding, passed in exactly where the Go code samples them. -/

def handleNonStreamingResponse (req : ChatCompletionRequest) (id : String)
    (created : Int) : ChatCompletionResponse :=
  { id := id
    object := "chat.completion"
    created := created
    model := req.model
    choices := [{ index := 0
                  message := { role := "assistant"
                               content := generateResponse req.messages } }] }

/-! ## Request decoding: `json.NewDecoder(r.Body).Decode(&req)` (line 111)

The Go standard-library decoder reads exactly one JSON value from the body
stream and unmarshals it into the request struct; bytes after that value are
never read by this program.  It is embedded as a recursive-descent parser
over the body's characters returning the parsed value and the unconsumed
remainder.  The parser is fuel-indexed (fuel `2·n + 2` always suffices for an
input of `n` characters) so that it is structurally recursive and evaluates
inside the kernel. -/

/-- JSON values.  Numbers keep their source text: this program never
unmarshals a number into any field, so only their extent matters. -/
inductive Json where
  | null
  | bool (b : Bool)
  | num (text : String)
  | str (s : String)
  | arr (elems : List Json)
  | obj (members : List (String × Json))

/-- The JSON/Go whitespace set (space, tab, newline, carriage return). -/
def isJsonWs (c : Char) : Bool :=
  c == ' ' || c == '\t' || c == '\n' || c == '\r'

def skipWs (cs : List Char) : List Char := cs.dropWhile isJsonWs

/-- Single-character escapes of JSON strings. -/
def escCharMap (e : Char) : Option Char :=
  if e = '"' then some '"'
  else if e = '\\' then some '\\'
  else if e = '/' then some '/'
  else if e = 'b' then some '\x08'
  else if e = 'f' then some '\x0c'
  else if e = 'n' then some '\n'
  else if e = 'r' then some '\r'
  else if e = 't' then some '\t'
  else none

def hexVal (c : Char) : Option Nat :=
  if 48 ≤ c.toNat ∧ c.toNat ≤ 57 then some (c.toNat - 48)
  else if 97 ≤ c.toNat ∧ c.toNat ≤ 102 then some (c.toNat - 87)
  else if 65 ≤ c.toNat ∧ c.toNat ≤ 70 then some (c.toNat - 55)
  else none

/-- Character for a `\uXXXX` escape; Go replaces unpaired surrogates with
U+FFFD (surrogate-pair combining is elided: it only changes which
replacement characters appear, which no claim depends on). -/
def uChar (n : Nat) : Char :=
  if 0xD800 ≤ n ∧ n < 0xE000 then '�' else Char.ofNat n

/-- Parse the body of a JSON string after the opening quote; returns the
decoded characters and the remainder after the closing quote.  Raw control
characters are rejected, as in Go. -/
def parseStringChars : List Char → Option (List Char × List Char)
  | [] => none
  | c :: rest =>
    if c = '"' then some ([], rest)
    else if c = '\\' then
      match rest with
      | [] => none
      | e :: rest2 =>
        if e = 'u' then
          match rest2 with
          | h1 :: h2 :: h3 :: h4 :: rest4 =>
            match hexVal h1, hexVal h2, hexVal h3, hexVal h4 with
            | some v1, some v2, some v3, some v4 =>
              (parseStringChars rest4).map
                (fun p => (uChar (((v1 * 16 + v2) * 16 + v3) * 16 + v4) :: p.1, p.2))
            | _, _, _, _ => none
          | _ => none
        else
          match escCharMap e with
          | some ec => (parseStringChars rest2).map (fun p => (ec :: p.1, p.2))
          | none => none
    else if c.toNat < 0x20 then none
    else (parseStringChars rest).map (fun p => (c :: p.1, p.2))

/-- Unsigned integer part of a JSON number: `0`, or a nonzero digit followed
by a maximal digit run. -/
def parseUIntPart : List Char → Option (List Char × List Char)
  | [] => none
  | c :: rest =>
    if c = '0' then some (['0'], rest)
    else if c.isDigit then
      some (c :: rest.takeWhile Char.isDigit, rest.dropWhile Char.isDigit)
    else none

/-- Integer part with optional leading minus. -/
def parseIntPart (cs : List Char) : Option (List Char × List Char) :=
  match cs with
  | [] => none
  | c :: rest =>
    if c = '-' then (parseUIntPart rest).map (fun p => ('-' :: p.1, p.2))
    else parseUIntPart (c :: rest)

/-- Optional fraction part; a bare dot without digits is a syntax error. -/
def parseFracPart (cs : List Char) : Option (List Char × List Char) :=
  match cs with
  | [] => some ([], [])
  | c :: rest =>
    if c = '.' then
      match rest with
      | [] => none
      | d :: rest2 =>
        if d.isDigit then
          some ('.' :: d :: rest2.takeWhile Char.isDigit, rest2.dropWhile Char.isDigit)
        else none
    else some ([], c :: rest)

/-- Optional exponent part. -/
def parseExpPart (cs : List Char) : Option (List Char × List Char) :=
  match cs with
  | [] => some ([], [])
  | c :: rest =>
    if c = 'e' || c = 'E' then
      match rest with
      | [] => none
      | s :: rest2 =>
        if s = '+' || s = '-' then
          match rest2 with
          | [] => none
          | d :: rest3 =>
            if d.isDigit then
              some (c :: s :: d :: rest3.takeWhile Char.isDigit, rest3.dropWhile Char.isDigit)
            else none
        else if s.isDigit then
          some (c :: s :: rest2.takeWhile Char.isDigit, rest2.dropWhile Char.isDigit)
        else none
    else some ([], cs)

/-- A JSON number starting at the head of the input. -/
def parseNumber (cs : List Char) : Option (Json × List Char) :=
  match parseIntPart cs with
  | none => none
  | some (ip, r1) =>
    match parseFracPart r1 with
    | none => none
    | some (fp, r2) =>
      match parseExpPart r2 with
      | none => none
      | some (ep, r3) => some (Json.num (String.mk (ip ++ fp ++ ep)), r3)

/-- Parsing modes of the mutual grammar: a value, the members of an object
after at least one member is required, or the elements of an array after at
least one element is required. -/
inductive PMode where
  | value
  | members
  | elems

/-- Result of one parsing call. -/
inductive PRes where
  | val (v : Json) (rest : List Char)
  | members (ms : List (String × Json)) (rest : List Char)
  | elems (es : List Json) (rest : List Char)

/-- The recursive-descent JSON grammar, fuel-indexed. -/
def parseF : Nat → PMode → List Char → Option PRes
  | 0, _, _ => none
  | fuel + 1, PMode.value, cs =>
    match skipWs cs with
    | [] => none
    | c :: rest =>
      if c = '\x7b' then
        match skipWs rest with
        | [] => none
        | d :: rest2 =>
          if d = '\x7d' then some (PRes.val (Json.obj []) rest2)
          else
            match parseF fuel PMode.members rest with
            | some (PRes.members ms rest3) => some (PRes.val (Json.obj ms) rest3)
            | _ => none
      else if c = '[' then
        match skipWs rest with
        | [] => none
        | d :: rest2 =>
          if d = ']' then some (PRes.val (Json.arr []) rest2)
          else
            match parseF fuel PMode.elems rest with
            | some (PRes.elems es rest3) => some (PRes.val (Json.arr es) rest3)
            | _ => none
      else if c = '"' then
        match parseStringChars rest with
        | some (sChars, rest2) => some (PRes.val (Json.str (String.mk sChars)) rest2)
        | none => none
      else if c = 't' then
        match rest with
        | r1 :: r2 :: r3 :: r' =>
          if r1 = 'r' ∧ r2 = 'u' ∧ r3 = 'e' then some (PRes.val (Json.bool true) r')
          else none
        | _ => none
      else if c = 'f' then
        match rest with
        | r1 :: r2 :: r3 :: r4 :: r' =>
          if r1 = 'a' ∧ r2 = 'l' ∧ r3 = 's' ∧ r4 = 'e' then
            some (PRes.val (Json.bool false) r')
          else none
        | _ => none
      else if c = 'n' then
        match rest with
        | r1 :: r2 :: r3 :: r' =>
          if r1 = 'u' ∧ r2 = 'l' ∧ r3 = 'l' then some (PRes.val Json.null r')
          else none
        | _ => none
      else if c = '-' || c.isDigit then
        match parseNumber (c :: rest) with
        | some (v, r) => some (PRes.val v r)
        | none => none
      else none
  | fuel + 1, PMode.members, cs =>
    match skipWs cs with
    | [] => none
    | c :: rest =>
      if c = '"' then
        match parseStringChars rest with
        | none => none
        | some (keyChars, rest2) =>
          match skipWs rest2 with
          | [] => none
          | d :: rest3 =>
            if d = ':' then
              match parseF fuel PMode.value rest3 with
              | some (PRes.val v rest4) =>
                match skipWs rest4 with
                | [] => none
                | e :: rest5 =>
                  if e = ',' then
                    match parseF fuel PMode.members rest5 with
                    | some (PRes.members ms rest6) =>
                      some (PRes.members ((String.mk keyChars, v) :: ms) rest6)
                    | _ => none
                  else if e = '\x7d' then
                    some (PRes.members [(String.mk keyChars, v)] rest5)
                  else none
              | _ => none
            else none
      else none
  | fuel + 1, PMode.elems, cs =>
    match parseF fuel PMode.value cs with
    | some (PRes.val v rest) =>
      match skipWs rest with
      | [] => none
      | c :: rest2 =>
        if c = ',' then
          match parseF fuel PMode.elems rest2 with
          | some (PRes.elems es rest3) => some (PRes.elems (v :: es) rest3)
          | _ => none
        else if c = ']' then some (PRes.elems [v] rest2)
        else none
    | _ => none

/-- Read the first JSON value from the stream, returning it together with the
unread remainder, as `json.Decoder.Decode` does. -/
def parseFirst (cs : List Char) : Option (Json × List Char) :=
  match parseF (2 * cs.length + 2) PMode.value cs with
  | some (PRes.val v rest) => some (v, rest)
  | _ => none

/-! ## Go-style unmarshalling into `ChatCompletionRequest`

Go `encoding/json` semantics for this struct: the top-level value must be an
object (or `null`, a no-op); keys match struct fields case-insensitively
(`strings.EqualFold`, here its ASCII restriction — the three field names
contain no characters with exotic Unicode foldings other than the long-s/s
fold, which no behaviour of this program depends on); later duplicate keys
overwrite earlier ones; `null` field values are no-ops; a value of the wrong
type is an error; unknown keys are ignored. -/

def lowerAscii (c : Char) : Char :=
  if 65 ≤ c.toNat ∧ c.toNat ≤ 90 then Char.ofNat (c.toNat + 32) else c

def eqFold (a b : String) : Bool :=
  a.data.map lowerAscii == b.data.map lowerAscii

def zeroMessage : Message := { role := "", content := "" }

def zeroRequest : ChatCompletionRequest :=
  { model := "", messages := [], stream := false }

def unmarshalString (v : Json) (cur : String) : Option String :=
  match v with
  | Json.null => some cur
  | Json.str s => some s
  | _ => none

def unmarshalBool (v : Json) (cur : Bool) : Option Bool :=
  match v with
  | Json.null => some cur
  | Json.bool b => some b
  | _ => none

def msgField (m : Message) (k : String) (v : Json) : Option Message :=
  if eqFold k "role" then (unmarshalString v m.role).map (fun s => { m with role := s })
  else if eqFold k "content" then
    (unmarshalString v m.content).map (fun s => { m with content := s })
  else some m

def unmarshalMessageElem (v : Json) : Option Message :=
  match v with
  | Json.null => some zeroMessage
  | Json.obj kvs =>
    kvs.foldl (fun acc kv => acc.bind (fun m => msgField m kv.1 kv.2)) (some zeroMessage)
  | _ => none

def unmarshalMessages (v : Json) (cur : List Message) : Option (List Message) :=
  match v with
  | Json.null => some cur
  | Json.arr xs => xs.mapM unmarshalMessageElem
  | _ => none

def reqField (r : ChatCompletionRequest) (k : String) (v : Json) :
    Option ChatCompletionRequest :=
  if eqFold k "model" then (unmarshalString v r.model).map (fun s => { r with model := s })
  else if eqFold k "messages" then
    (unmarshalMessages v r.messages).map (fun ms => { r with messages := ms })
  else if eqFold k "stream" then
    (unmarshalBool v r.stream).map (fun b => { r with stream := b })
  else some r

def unmarshalChatRequest (v : Json) : Option ChatCompletionRequest :=
  match v with
  | Json.null => some zeroRequest
  | Json.obj kvs =>
    kvs.foldl (fun acc kv => acc.bind (fun r => reqField r kv.1 kv.2)) (some zeroRequest)
  | _ => none

/-- `json.NewDecoder(r.Body).Decode(&req)`: parse the first JSON value of the
stream (trailing bytes unread) and unmarshal it. -/
def decodeChars (cs : List Char) : Option ChatCompletionRequest :=
  match parseFirst cs with
  | some (v, _) => unmarshalChatRequest v
  | none => none

def decodeBody (s : String) : Option ChatCompletionRequest := decodeChars s.data

/-! ## The completions handler (`handleChatCompletion`, lines 89-122)

The request body is embedded abstractly with respect to gzip
(`compress/gzip`, a standard-library collaborator): a byte stream either is a
well-formed gzip stream wrapping some payload (`Body.gzipped`), or it is
plain text that does not begin with a valid gzip header (`Body.raw`).
`gzip.NewReader` fails exactly on the latter.  When a gzip stream is fed
directly to the JSON decoder (no `Content-Encoding` header), decoding fails,
because a gzip stream begins with the magic bytes `1f 8b`, which can never
start a JSON value; `gzipMagicText` is the stand-in for those bytes. -/

inductive Body where
  | raw (text : String)
  | gzipped (payload : String)
deriving DecidableEq, Repr

/-- Stand-in for the leading bytes of a compressed stream: the gzip magic
bytes, at which any JSON parse already fails. -/
def gzipMagicText : String := String.mk ['\x1f', '\x8b']

/-- `gzip.NewReader` + read-through: succeeds exactly on well-formed gzip. -/
def decompressGzip : Body → Option String
  | Body.gzipped payload => some payload
  | Body.raw _ => none

/-- The bytes of the body as seen without decompression. -/
def rawText : Body → String
  | Body.raw s => s
  | Body.gzipped _ => gzipMagicText

/-- Lines 91-101: when the `Content-Encoding: gzip` header is present the
body is decompressed first (failure → 400); otherwise the raw bytes flow on. -/
def bodyAfterGzip (gzipHeader : Bool) (body : Body) : Option String :=
  if gzipHeader then decompressGzip body else some (rawText body)

/-- Observable outcome of the completions handler. -/
inductive HandlerResult where
  | err (status : Nat) (msg : String)
  | jsonResp (resp : ChatCompletionResponse)
  | stream (frames : List ChatCompletionChunk)
deriving DecidableEq, Repr

/-- `handleChatCompletion` (lines 89-122), in source order: gzip handling,
then the method check, then decoding, then dispatch on `req.Stream`.
`id` and `created` stand for the random id and wall-clock time sampled by
the responder that ends up running. -/
def handleChatCompletion (method : String) (gzipHeader : Bool) (body : Body)
    (id : String) (created : Int) : HandlerResult :=
  match bodyAfterGzip gzipHeader body with
  | none => HandlerResult.err 400 "Failed to decompress request body"
  | some s =>
    if method ≠ "POST" then HandlerResult.err 405 "Method not allowed"
    else
      match decodeBody s with
      | none => HandlerResult.err 400 "Invalid request body"
      | some req =>
        if req.stream then
          HandlerResult.stream
            (streamFrames req.model id created (generateResponse req.messages))
        else
          HandlerResult.jsonResp (handleNonStreamingResponse req id created)

/-! ## Fault injection (`handleRandomFail` lines 72-78, `handleRandom`
lines 80-87)

Each `rand.Intn(10)` draw is a uniform choice from `Fin 10`.  `handleRandom`
draws once: below 5 it delegates to `handleRandomFail` (which draws again:
below 5 → HTTP 500, else plain delegation with no delay); otherwise it sleeps
a random duration and delegates.  The `rand.Intn(5000)` sleep draw affects
only the delay length, never the outcome class, so it is not a parameter of
the outcome function. -/

inductive RandomOutcome where
  | hardFailure
  | delayThenSuccess
  | plainSuccess
deriving DecidableEq, Repr

/-- `handleRandomFail` as a function of its draw: `true` means it responds
HTTP 500 "Random error" instead of delegating. -/
def randomFailFails (r : Fin 10) : Bool := r.val < 5

/-- Outcome of `handleRandom` as a function of its own draw `r1` and the
draw `r2` that `handleRandomFail` makes when it is reached. -/
def handleRandomOutcome (r1 r2 : Fin 10) : RandomOutcome :=
  if r1.val < 5 then
    if randomFailFails r2 then RandomOutcome.hardFailure
    else RandomOutcome.plainSuccess
  else RandomOutcome.delayThenSuccess

/-- Number of draw pairs (out of the 100 equiprobable ones) yielding a given
outcome. -/
def outcomeCount (o : RandomOutcome) : Nat :=
  ((Finset.univ : Finset (Fin 10 × Fin 10)).filter
    (fun p => handleRandomOutcome p.1 p.2 = o)).card

/-- `res` with `t` appended to its unconsumed remainder. -/
def pExtend (t : List Char) : PRes → PRes
  | PRes.val v rest => PRes.val v (rest ++ t)
  | PRes.members ms rest => PRes.members ms (rest ++ t)
  | PRes.elems es rest => PRes.elems es (rest ++ t)

/-- Condition under which a parse result is stable under extending the
input: a number at the very end of the input would keep absorbing digits,
every other value ends at a closing delimiter. -/
def pOkNum : PRes → Prop
  | PRes.val (Json.num _) rest => rest ≠ []
  | _ => True

/-- The single choice of a frame (the source always builds a one-element
`Choices` slice). -/
def frameChoice (c : ChatCompletionChunk) : ChunkChoice :=
  c.choices.headD { index := 0, delta := {}, logprobs := none, finishReason := "" }

/-- Delta role of a frame. -/
def frameRole (c : ChatCompletionChunk) : String := (frameChoice c).delta.role

/-- Delta content of a frame. -/
def frameContent (c : ChatCompletionChunk) : String := (frameChoice c).delta.content

/-- Finish reason of a frame. -/
def frameFinish (c : ChatCompletionChunk) : String := (frameChoice c).finishReason

/-! ## Basic lemmas about `chunkPairs` -/

theorem chunkPairs_length (cs : List Char) :
    (chunkPairs cs).length = (cs.length + 1) / 2 := by
  induction cs using chunkPairs.induct with
  | case1 => simp [chunkPairs]
  | case2 c => simp [chunkPairs]
  | case3 c1 c2 rest ih => simp [chunkPairs, ih]; omega

theorem chunkPairs_data_join (cs : List Char) :
    ((chunkPairs cs).map String.data).flatten = cs := by
  induction cs using chunkPairs.induct with
  | case1 => simp [chunkPairs]
  | case2 c => simp [chunkPairs]
  | case3 c1 c2 rest ih => simp [chunkPairs, ih]

theorem chunkPairs_ne_empty (cs : List Char) :
    ∀ s ∈ chunkPairs cs, s ≠ "" := by
  induction cs using chunkPairs.induct with
  | case1 => simp [chunkPairs]
  | case2 c =>
    intro s hs
    simp [chunkPairs] at hs
    subst hs
    intro h
    have : (String.mk [c]).data = ("" : String).data := by rw [h]
    simp at this
  | case3 c1 c2 rest ih =>
    intro s hs
    simp only [chunkPairs, List.mem_cons] at hs
    rcases hs with h | h
    · subst h
      intro h
      have : (String.mk [c1, c2]).data = ("" : String).data := by rw [h]
      simp at this
    · exact ih s h

theorem drop_two_cons {α : Type} (a b : α) (l : List α) (n : Nat) :
    (a :: b :: l).drop (n + 2) = l.drop n := rfl

theorem chunkPairs_get (cs : List Char) :
    ∀ j (h : j < (chunkPairs cs).length),
      (chunkPairs cs).get ⟨j, h⟩ = String.mk ((cs.drop (2 * j)).take 2) := by
  induction cs using chunkPairs.induct with
  | case1 => intro j h; simp [chunkPairs] at h
  | case2 c =>
    intro j h
    have hj : j = 0 := by
      simp [chunkPairs] at h
      omega
    subst hj
    rfl
  | case3 c1 c2 rest ih =>
    intro j h
    cases j with
    | zero => rfl
    | succ j' =>
      have h' : j' < (chunkPairs rest).length := by
        have h2 := h
        simp [chunkPairs] at h2
        omega
      have hstep : (chunkPairs (c1 :: c2 :: rest)).get ⟨j' + 1, h⟩
          = (chunkPairs rest).get ⟨j', h'⟩ := rfl
      rw [hstep, ih j' h', Nat.mul_succ, drop_two_cons]

theorem string_eq_of_data {a b : String} (h : a.data = b.data) : a = b := by
  cases a; cases b; exact congrArg String.mk h

theorem data_append_eq (a b : String) : (a ++ b).data = a.data ++ b.data := by
  cases a; cases b; rfl

theorem foldl_append_data (l : List String) (init : String) :
    (l.foldl (fun r s => r ++ s) init).data = init.data ++ (l.map String.data).flatten := by
  induction l generalizing init with
  | nil => simp
  | cons a l ih =>
    simp only [List.foldl_cons, List.map_cons, List.flatten_cons]
    rw [ih, data_append_eq, List.append_assoc]

theorem join_data (l : List String) :
    (String.join l).data = (l.map String.data).flatten := by
  show (l.foldl (fun r s => r ++ s) "").data = _
  rw [foldl_append_data]
  rfl

/-- The streamed string pieces reassemble to the original reply. -/
theorem chunkPairs_join (cs : List Char) :
    String.join (chunkPairs cs) = String.mk cs := by
  apply string_eq_of_data
  rw [join_data, chunkPairs_data_join]

theorem writesFlushed_chunk_blocks (l : List String)
    (g : String → ChatCompletionChunk) (tail : List WireOp)
    (htail : writesFlushed tail = true) :
    writesFlushed
      (l.flatMap (fun s => writeChunkOps true (g s) ++ [WireOp.sleep 50]) ++ tail)
      = true := by
  induction l with
  | nil => simpa
  | cons a l ih =>
    simpa [writeChunkOps, writesFlushed] using ih

/-! ## Parser extension lemmas

`json.Decoder.Decode` never reads past the value it returns; the embedding
satisfies the corresponding theorem: a successful parse of `cs` is also the
parse of `cs ++ t`, with `t` left over. -/

theorem dropWhile_append_cons {α : Type} (p : α → Bool) (cs t : List α)
    (c : α) (rest : List α) (h : cs.dropWhile p = c :: rest) :
    (cs ++ t).dropWhile p = c :: (rest ++ t) := by
  induction cs with
  | nil => simp [List.dropWhile] at h
  | cons a cs ih =>
    rw [List.cons_append, List.dropWhile_cons] at *
    by_cases hp : p a
    · simp only [hp, if_true] at h ⊢
      exact ih h
    · simp only [hp, Bool.false_eq_true, if_false] at h ⊢
      cases h
      rfl

theorem takeWhile_append_of_drop {α : Type} (p : α → Bool) (cs t : List α)
    (c : α) (rest : List α) (h : cs.dropWhile p = c :: rest) :
    (cs ++ t).takeWhile p = cs.takeWhile p := by
  induction cs with
  | nil => simp [List.dropWhile] at h
  | cons a cs ih =>
    rw [List.cons_append, List.dropWhile_cons] at *
    rw [List.takeWhile_cons, List.takeWhile_cons]
    by_cases hp : p a
    · simp only [hp, if_true] at h ⊢
      rw [ih h]
    · simp [hp]

theorem skipWs_append_cons (cs t : List Char) (c : Char) (rest : List Char)
    (h : skipWs cs = c :: rest) : skipWs (cs ++ t) = c :: (rest ++ t) :=
  dropWhile_append_cons isJsonWs cs t c rest h

theorem skipWs_ne_nil_of_cons (cs : List Char) (c : Char) (rest : List Char)
    (h : skipWs cs = c :: rest) : cs ≠ [] := by
  intro hnil
  subst hnil
  simp [skipWs, List.dropWhile] at h

theorem parseStringChars_append (cs : List Char) :
    ∀ t s rest, parseStringChars cs = some (s, rest) →
      parseStringChars (cs ++ t) = some (s, rest ++ t) := by
  induction cs using parseStringChars.induct with
  | case1 =>
    intro t s rest h
    simp [parseStringChars] at h
  | case2 rest2 =>
    intro t s rest h
    rw [parseStringChars.eq_def] at h ⊢
    simp at h ⊢
    obtain ⟨rfl, rfl⟩ := h
    exact ⟨rfl, rfl⟩
  | case3 hq =>
    intro t s rest h
    simp [parseStringChars] at h
  | case4 a1 a2 a3 a4 rest4 v1 v2 v3 v4 hx4 hx3 hx2 hx1 hq ih =>
    intro t s rest h
    rw [parseStringChars.eq_def] at h ⊢
    simp [hx1, hx2, hx3, hx4] at h ⊢
    obtain ⟨a, hp, hs⟩ := h
    exact ⟨a, ih t a rest hp, hs⟩
  | case5 a1 a2 a3 a4 rest4 hxfail hq =>
    intro t s rest h
    rw [parseStringChars.eq_def] at h
    rcases hx1 : hexVal a1 with _ | v1 <;>
      rcases hx2 : hexVal a2 with _ | v2 <;>
      rcases hx3 : hexVal a3 with _ | v3 <;>
      rcases hx4 : hexVal a4 with _ | v4 <;>
      simp [hx1, hx2, hx3, hx4] at h
    exact (hxfail v1 v2 v3 v4 hx1 hx2 hx3 hx4).elim
  | case6 rest2 hshort hq =>
    intro t s rest h
    rw [parseStringChars.eq_def] at h
    rcases rest2 with _ | ⟨a, _ | ⟨b, _ | ⟨c3, _ | ⟨d, r⟩⟩⟩⟩
    · simp at h
    · simp at h
    · simp at h
    · simp at h
    · exact (hshort a b c3 d r rfl).elim
  | case7 e rest2 hnu ec hesc hq ih =>
    intro t s rest h
    rw [parseStringChars.eq_def] at h ⊢
    simp [hnu, hesc] at h ⊢
    obtain ⟨a, hp, hs⟩ := h
    exact ⟨a, ih t a rest hp, hs⟩
  | case8 e rest2 hnu hesc hq =>
    intro t s rest h
    rw [parseStringChars.eq_def] at h
    simp [hnu, hesc] at h
  | case9 e rest2 hq hb hctl =>
    intro t s rest h
    rw [parseStringChars.eq_def] at h
    simp [hq, hb, hctl] at h
  | case10 c rest0 hq hb hctl ih =>
    intro t s rest h
    rw [parseStringChars.eq_def] at h ⊢
    simp [hq, hb, hctl] at h ⊢
    obtain ⟨a, hp, hs⟩ := h
    exact ⟨a, ih t a rest hp, hs⟩

theorem parseUIntPart_append (cs t : List Char) (ds : List Char) (c : Char)
    (rest : List Char) (h : parseUIntPart cs = some (ds, c :: rest)) :
    parseUIntPart (cs ++ t) = some (ds, c :: (rest ++ t)) := by
  match cs with
  | [] => simp [parseUIntPart] at h
  | a :: cs' =>
    rw [List.cons_append]
    rw [parseUIntPart.eq_def] at h ⊢
    by_cases h0 : a = '0'
    · simp only [h0, if_pos rfl] at h ⊢
      simp at h ⊢
      obtain ⟨rfl, hcs⟩ := h
      simp [hcs]
    · by_cases hd : a.isDigit
      · simp only [if_neg h0, if_pos hd] at h ⊢
        simp at h ⊢
        obtain ⟨hds, hdrop⟩ := h
        rw [takeWhile_append_of_drop Char.isDigit cs' t c rest hdrop,
            dropWhile_append_cons Char.isDigit cs' t c rest hdrop]
        exact ⟨hds, rfl⟩
      · simp [h0, hd] at h

theorem parseIntPart_append (cs t : List Char) (ds : List Char) (c : Char)
    (rest : List Char) (h : parseIntPart cs = some (ds, c :: rest)) :
    parseIntPart (cs ++ t) = some (ds, c :: (rest ++ t)) := by
  match cs with
  | [] => simp [parseIntPart] at h
  | a :: cs' =>
    rw [List.cons_append]
    rw [parseIntPart.eq_def] at h ⊢
    by_cases hm : a = '-'
    · rcases hu : parseUIntPart cs' with _ | ⟨ds', r'⟩
      · simp [hm, hu] at h
      · match r' with
        | [] =>
          simp [hm, hu] at h
        | c' :: rest' =>
          simp [hm, hu] at h
          obtain ⟨rfl, rfl, rfl⟩ := h
          simp [hm, parseUIntPart_append cs' t ds' c' rest' hu]
    · simp only [if_neg hm] at h ⊢
      exact parseUIntPart_append (a :: cs') t ds c rest h

theorem parseFracPart_append (cs t : List Char) (fp : List Char) (c : Char)
    (rest : List Char) (h : parseFracPart cs = some (fp, c :: rest)) :
    parseFracPart (cs ++ t) = some (fp, c :: (rest ++ t)) := by
  match cs with
  | [] => simp [parseFracPart] at h
  | a :: cs' =>
    rw [List.cons_append]
    rw [parseFracPart.eq_def] at h ⊢
    by_cases hdot : a = '.'
    · match cs' with
      | [] => simp [hdot] at h
      | d :: cs'' =>
        by_cases hd : d.isDigit
        · simp only [hdot, if_pos rfl, List.cons_append] at h ⊢
          simp [hd] at h ⊢
          obtain ⟨hfp, hdrop⟩ := h
          rw [takeWhile_append_of_drop Char.isDigit cs'' t c rest hdrop,
              dropWhile_append_cons Char.isDigit cs'' t c rest hdrop]
          exact ⟨hfp, rfl⟩
        · simp [hdot, hd] at h
    · simp only [if_neg hdot] at h ⊢
      simp at h ⊢
      obtain ⟨rfl, rfl, rfl⟩ := h
      exact ⟨rfl, rfl, rfl⟩

theorem parseExpPart_append (cs t : List Char) (ep : List Char) (c : Char)
    (rest : List Char) (h : parseExpPart cs = some (ep, c :: rest)) :
    parseExpPart (cs ++ t) = some (ep, c :: (rest ++ t)) := by
  match cs with
  | [] => simp [parseExpPart] at h
  | a :: cs' =>
    rw [List.cons_append]
    rw [parseExpPart.eq_def] at h ⊢
    by_cases he : (a = 'e' || a = 'E') = true
    · match cs' with
      | [] => simp [he] at h
      | b :: cs'' =>
        by_cases hsgn : (b = '+' || b = '-') = true
        · match cs'' with
          | [] => simp [he, hsgn] at h
          | d :: cs3 =>
            by_cases hd : d.isDigit
            · simp only [he, if_pos rfl, List.cons_append] at h ⊢
              simp [hsgn, hd] at h ⊢
              obtain ⟨hep, hdrop⟩ := h
              rw [takeWhile_append_of_drop Char.isDigit cs3 t c rest hdrop,
                  dropWhile_append_cons Char.isDigit cs3 t c rest hdrop]
              exact ⟨hep, rfl⟩
            · simp [he, hsgn, hd] at h
        · by_cases hbd : b.isDigit
          · simp only [he, if_pos rfl, List.cons_append] at h ⊢
            simp [hsgn, hbd] at h ⊢
            obtain ⟨hep, hdrop⟩ := h
            rw [takeWhile_append_of_drop Char.isDigit cs'' t c rest hdrop,
                dropWhile_append_cons Char.isDigit cs'' t c rest hdrop]
            exact ⟨hep, rfl⟩
          · simp [he, hsgn, hbd] at h
    · simp only [he, Bool.false_eq_true, if_false] at h ⊢
      simp at h ⊢
      obtain ⟨rfl, rfl, rfl⟩ := h
      try exact ⟨rfl, rfl, rfl⟩

theorem parseNumber_append (cs t : List Char) (v : Json) (c : Char)
    (rest : List Char) (h : parseNumber cs = some (v, c :: rest)) :
    parseNumber (cs ++ t) = some (v, c :: (rest ++ t)) := by
  rcases hip : parseIntPart cs with _ | ⟨ip, r1⟩
  · simp [parseNumber, hip] at h
  · rcases hfp : parseFracPart r1 with _ | ⟨fp, r2⟩
    · simp [parseNumber, hip, hfp] at h
    · rcases hep : parseExpPart r2 with _ | ⟨ep, r3⟩
      · simp [parseNumber, hip, hfp, hep] at h
      · simp [parseNumber, hip, hfp, hep] at h
        obtain ⟨hv, rfl⟩ := h
        have hr2 : ∃ c2 rest2, r2 = c2 :: rest2 := by
          match r2, hep with
          | [], hep => simp [parseExpPart] at hep
          | c2 :: rest2, hep => exact ⟨c2, rest2, rfl⟩
        obtain ⟨c2, rest2, rfl⟩ := hr2
        have hr1 : ∃ c1 rest1, r1 = c1 :: rest1 := by
          match r1, hfp with
          | [], hfp =>
            simp [parseFracPart] at hfp
          | c1 :: rest1, hfp => exact ⟨c1, rest1, rfl⟩
        obtain ⟨c1, rest1, rfl⟩ := hr1
        have h1 := parseIntPart_append cs t ip c1 rest1 hip
        have h2 := parseFracPart_append (c1 :: rest1) t fp c2 rest2 hfp
        have h3 := parseExpPart_append (c2 :: rest2) t ep c rest hep
        rw [List.cons_append] at h2 h3
        simp [parseNumber, h1, h2, h3, hv]

theorem pOkNum_of_ne_nil (v : Json) (rest : List Char) (h : rest ≠ []) :
    pOkNum (PRes.val v rest) := by
  cases v <;> first | exact h | trivial

theorem parseNumber_is_num (cs : List Char) (v : Json) (r : List Char)
    (h : parseNumber cs = some (v, r)) : ∃ s, v = Json.num s := by
  rcases hip : parseIntPart cs with _ | ⟨ip, r1⟩
  · simp [parseNumber, hip] at h
  · rcases hfp : parseFracPart r1 with _ | ⟨fp, r2⟩
    · simp [parseNumber, hip, hfp] at h
    · rcases hep : parseExpPart r2 with _ | ⟨ep, r3⟩
      · simp [parseNumber, hip, hfp, hep] at h
      · simp [parseNumber, hip, hfp, hep] at h
        exact ⟨_, h.1.symm⟩

theorem parseF_append (fuel : Nat) :
    ∀ m cs res t, parseF fuel m cs = some res → pOkNum res →
      parseF fuel m (cs ++ t) = some (pExtend t res) := by
  induction fuel with
  | zero =>
    intro m cs res t h hok
    simp [parseF] at h
  | succ fuel ih =>
    intro m cs res t h hok
    cases m with
    | value =>
      rcases hsk : skipWs cs with _ | ⟨c, rest⟩
      · simp [parseF, hsk] at h
      · have hskg := skipWs_append_cons cs t c rest hsk
        by_cases hc1 : c = '\x7b'
        · rcases hsk2 : skipWs rest with _ | ⟨d, rest2⟩
          · simp [parseF, hsk, hsk2, hc1] at h
          · have hskg2 := skipWs_append_cons rest t d rest2 hsk2
            by_cases hd : d = '\x7d'
            · simp [parseF, hsk, hskg, hsk2, hskg2, hc1, hd] at h ⊢
              subst h
              simp [pExtend]
            · rcases hm : parseF fuel PMode.members rest with _ | pres
              · simp [parseF, hsk, hsk2, hc1, hd, hm] at h
              · cases pres with
                | members ms rest3 =>
                  have hm' := ih PMode.members rest (PRes.members ms rest3) t hm trivial
                  simp only [pExtend] at hm'
                  simp [parseF, hsk, hskg, hsk2, hskg2, hc1, hd, hm, hm'] at h ⊢
                  subst h
                  simp [pExtend]
                | val v r => simp [parseF, hsk, hsk2, hc1, hd, hm] at h
                | elems es r => simp [parseF, hsk, hsk2, hc1, hd, hm] at h
        · by_cases hc2 : c = '['
          · rcases hsk2 : skipWs rest with _ | ⟨d, rest2⟩
            · simp [parseF, hsk, hsk2, hc1, hc2] at h
            · have hskg2 := skipWs_append_cons rest t d rest2 hsk2
              by_cases hd : d = ']'
              · simp [parseF, hsk, hskg, hsk2, hskg2, hc1, hc2, hd] at h ⊢
                subst h
                simp [pExtend]
              · rcases hm : parseF fuel PMode.elems rest with _ | pres
                · simp [parseF, hsk, hsk2, hc1, hc2, hd, hm] at h
                · cases pres with
                  | elems es rest3 =>
                    have hm' := ih PMode.elems rest (PRes.elems es rest3) t hm trivial
                    simp only [pExtend] at hm'
                    simp [parseF, hsk, hskg, hsk2, hskg2, hc1, hc2, hd, hm, hm'] at h ⊢
                    subst h
                    simp [pExtend]
                  | val v r => simp [parseF, hsk, hsk2, hc1, hc2, hd, hm] at h
                  | members ms r => simp [parseF, hsk, hsk2, hc1, hc2, hd, hm] at h
          · by_cases hc3 : c = '"'
            · rcases hps : parseStringChars rest with _ | ⟨sChars, rest2⟩
              · simp [parseF, hsk, hc1, hc2, hc3, hps] at h
              · have hpsg := parseStringChars_append rest t sChars rest2 hps
                simp [parseF, hsk, hskg, hc1, hc2, hc3, hps, hpsg] at h ⊢
                subst h
                simp [pExtend]
            · by_cases hc4 : c = 't'
              · rcases rest with _ | ⟨r1, _ | ⟨r2, _ | ⟨r3, r'⟩⟩⟩
                · simp [parseF, hsk, hc1, hc2, hc3, hc4] at h
                · simp [parseF, hsk, hc1, hc2, hc3, hc4] at h
                · simp [parseF, hsk, hc1, hc2, hc3, hc4] at h
                · by_cases hlit : r1 = 'r' ∧ r2 = 'u' ∧ r3 = 'e'
                  · simp [parseF, hsk, hskg, hc1, hc2, hc3, hc4, hlit] at h ⊢
                    subst h
                    simp [pExtend]
                  · simp [parseF, hsk, hc1, hc2, hc3, hc4, hlit] at h
              · by_cases hc5 : c = 'f'
                · rcases rest with _ | ⟨r1, _ | ⟨r2, _ | ⟨r3, _ | ⟨r4, r'⟩⟩⟩⟩
                  · simp [parseF, hsk, hc1, hc2, hc3, hc4, hc5] at h
                  · simp [parseF, hsk, hc1, hc2, hc3, hc4, hc5] at h
                  · simp [parseF, hsk, hc1, hc2, hc3, hc4, hc5] at h
                  · simp [parseF, hsk, hc1, hc2, hc3, hc4, hc5] at h
                  · by_cases hlit : r1 = 'a' ∧ r2 = 'l' ∧ r3 = 's' ∧ r4 = 'e'
                    · simp [parseF, hsk, hskg, hc1, hc2, hc3, hc4, hc5, hlit] at h ⊢
                      subst h
                      simp [pExtend]
                    · simp [parseF, hsk, hc1, hc2, hc3, hc4, hc5, hlit] at h
                · by_cases hc6 : c = 'n'
                  · rcases rest with _ | ⟨r1, _ | ⟨r2, _ | ⟨r3, r'⟩⟩⟩
                    · simp [parseF, hsk, hc1, hc2, hc3, hc4, hc5, hc6] at h
                    · simp [parseF, hsk, hc1, hc2, hc3, hc4, hc5, hc6] at h
                    · simp [parseF, hsk, hc1, hc2, hc3, hc4, hc5, hc6] at h
                    · by_cases hlit : r1 = 'u' ∧ r2 = 'l' ∧ r3 = 'l'
                      · simp [parseF, hsk, hskg, hc1, hc2, hc3, hc4, hc5, hc6, hlit] at h ⊢
                        subst h
                        simp [pExtend]
                      · simp [parseF, hsk, hc1, hc2, hc3, hc4, hc5, hc6, hlit] at h
                  · by_cases hc7 : (c = '-' || c.isDigit) = true
                    · rcases hpn : parseNumber (c :: rest) with _ | ⟨v, r⟩
                      · simp [parseF, hsk, hc1, hc2, hc3, hc4, hc5, hc6, hc7, hpn] at h
                      · simp [parseF, hsk, hc1, hc2, hc3, hc4, hc5, hc6, hc7, hpn] at h
                        subst h
                        obtain ⟨ns, rfl⟩ := parseNumber_is_num (c :: rest) v r hpn
                        have hrne : r ≠ [] := hok
                        rcases r with _ | ⟨rc, rrest⟩
                        · exact absurd rfl hrne
                        · have hpng := parseNumber_append (c :: rest) t (Json.num ns)
                            rc rrest hpn
                          rw [List.cons_append] at hpng
                          simp [parseF, hskg, hc1, hc2, hc3, hc4, hc5, hc6, hc7, hpng, pExtend]
                    · simp [parseF, hsk, hc1, hc2, hc3, hc4, hc5, hc6, hc7] at h
    | members =>
      rcases hsk : skipWs cs with _ | ⟨c, rest⟩
      · simp [parseF, hsk] at h
      · have hskg := skipWs_append_cons cs t c rest hsk
        by_cases hc : c = '"'
        · rcases hps : parseStringChars rest with _ | ⟨keyChars, rest2⟩
          · simp [parseF, hsk, hc, hps] at h
          · have hpsg := parseStringChars_append rest t keyChars rest2 hps
            rcases hsk2 : skipWs rest2 with _ | ⟨d, rest3⟩
            · simp [parseF, hsk, hc, hps, hsk2] at h
            · have hskg2 := skipWs_append_cons rest2 t d rest3 hsk2
              by_cases hd : d = ':'
              · rcases hv : parseF fuel PMode.value rest3 with _ | pres
                · simp [parseF, hsk, hc, hps, hsk2, hd, hv] at h
                · cases pres with
                  | val v rest4 =>
                    rcases hsk3 : skipWs rest4 with _ | ⟨e, rest5⟩
                    · simp [parseF, hsk, hc, hps, hsk2, hd, hv, hsk3] at h
                    · have hne4 : rest4 ≠ [] := skipWs_ne_nil_of_cons rest4 e rest5 hsk3
                      have hv' := ih PMode.value rest3 (PRes.val v rest4) t hv
                        (pOkNum_of_ne_nil v rest4 hne4)
                      simp only [pExtend] at hv'
                      have hskg3 := skipWs_append_cons rest4 t e rest5 hsk3
                      by_cases he : e = ','
                      · rcases hm2 : parseF fuel PMode.members rest5 with _ | pres2
                        · simp [parseF, hsk, hc, hps, hsk2, hd, hv, hsk3, he, hm2] at h
                        · cases pres2 with
                          | members ms rest6 =>
                            have hm2' := ih PMode.members rest5 (PRes.members ms rest6) t
                              hm2 trivial
                            simp only [pExtend] at hm2'
                            simp [parseF, hsk, hskg, hc, hps, hpsg, hsk2, hskg2, hd, hv, hv',
                              hsk3, hskg3, he, hm2, hm2'] at h ⊢
                            subst h
                            simp [pExtend]
                          | val v2 r2 =>
                            simp [parseF, hsk, hc, hps, hsk2, hd, hv, hsk3, he, hm2] at h
                          | elems es r2 =>
                            simp [parseF, hsk, hc, hps, hsk2, hd, hv, hsk3, he, hm2] at h
                      · by_cases he2 : e = '\x7d'
                        · simp [parseF, hsk, hskg, hc, hps, hpsg, hsk2, hskg2, hd, hv, hv',
                            hsk3, hskg3, he, he2] at h ⊢
                          subst h
                          simp [pExtend]
                        · simp [parseF, hsk, hc, hps, hsk2, hd, hv, hsk3, he, he2] at h
                  | members ms r2 =>
                    simp [parseF, hsk, hc, hps, hsk2, hd, hv] at h
                  | elems es r2 =>
                    simp [parseF, hsk, hc, hps, hsk2, hd, hv] at h
              · simp [parseF, hsk, hc, hps, hsk2, hd] at h
        · simp [parseF, hsk, hc] at h
    | elems =>
      rcases hv : parseF fuel PMode.value cs with _ | pres
      · simp [parseF, hv] at h
      · cases pres with
        | val v rest =>
          rcases hsk : skipWs rest with _ | ⟨c, rest2⟩
          · simp [parseF, hv, hsk] at h
          · have hne : rest ≠ [] := skipWs_ne_nil_of_cons rest c rest2 hsk
            have hv' := ih PMode.value cs (PRes.val v rest) t hv (pOkNum_of_ne_nil v rest hne)
            simp only [pExtend] at hv'
            have hskg := skipWs_append_cons rest t c rest2 hsk
            by_cases hc : c = ','
            · rcases he2 : parseF fuel PMode.elems rest2 with _ | pres2
              · simp [parseF, hv, hsk, hc, he2] at h
              · cases pres2 with
                | elems es rest3 =>
                  have he2' := ih PMode.elems rest2 (PRes.elems es rest3) t he2 trivial
                  simp only [pExtend] at he2'
                  simp [parseF, hv, hv', hsk, hskg, hc, he2, he2'] at h ⊢
                  subst h
                  simp [pExtend]
                | val v2 r2 =>
                  simp [parseF, hv, hsk, hc, he2] at h
                | members ms r2 =>
                  simp [parseF, hv, hsk, hc, he2] at h
            · by_cases hc2 : c = ']'
              · simp [parseF, hv, hv', hsk, hskg, hc, hc2] at h ⊢
                subst h
                simp [pExtend]
              · simp [parseF, hv, hsk, hc, hc2] at h
        | members ms r =>
          simp [parseF, hv] at h
        | elems es r =>
          simp [parseF, hv] at h

theorem parseF_mono (fuel : Nat) :
    ∀ fuel' m cs res, fuel ≤ fuel' → parseF fuel m cs = some res →
      parseF fuel' m cs = some res := by
  induction fuel with
  | zero =>
    intro fuel' m cs res hle h
    simp [parseF] at h
  | succ fuel ih =>
    intro fuel' m cs res hle h
    obtain ⟨fuel'', rfl⟩ : ∃ k, fuel' = k + 1 := by
      cases fuel' with
      | zero => exact absurd hle (by omega)
      | succ k => exact ⟨k, rfl⟩
    have hle' : fuel ≤ fuel'' := by omega
    cases m with
    | value =>
      rcases hsk : skipWs cs with _ | ⟨c, rest⟩
      · simp [parseF, hsk] at h
      · by_cases hc1 : c = '\x7b'
        · rcases hsk2 : skipWs rest with _ | ⟨d, rest2⟩
          · simp [parseF, hsk, hsk2, hc1] at h
          · by_cases hd : d = '\x7d'
            · simp [parseF, hsk, hsk2, hc1, hd] at h ⊢
              exact h
            · rcases hm : parseF fuel PMode.members rest with _ | pres
              · simp [parseF, hsk, hsk2, hc1, hd, hm] at h
              · cases pres with
                | members ms rest3 =>
                  have hm' := ih fuel'' PMode.members rest (PRes.members ms rest3) hle' hm
                  simp [parseF, hsk, hsk2, hc1, hd, hm, hm'] at h ⊢
                  exact h
                | val v r => simp [parseF, hsk, hsk2, hc1, hd, hm] at h
                | elems es r => simp [parseF, hsk, hsk2, hc1, hd, hm] at h
        · by_cases hc2 : c = '['
          · rcases hsk2 : skipWs rest with _ | ⟨d, rest2⟩
            · simp [parseF, hsk, hsk2, hc1, hc2] at h
            · by_cases hd : d = ']'
              · simp [parseF, hsk, hsk2, hc1, hc2, hd] at h ⊢
                exact h
              · rcases hm : parseF fuel PMode.elems rest with _ | pres
                · simp [parseF, hsk, hsk2, hc1, hc2, hd, hm] at h
                · cases pres with
                  | elems es rest3 =>
                    have hm' := ih fuel'' PMode.elems rest (PRes.elems es rest3) hle' hm
                    simp [parseF, hsk, hsk2, hc1, hc2, hd, hm, hm'] at h ⊢
                    exact h
                  | val v r => simp [parseF, hsk, hsk2, hc1, hc2, hd, hm] at h
                  | members ms r => simp [parseF, hsk, hsk2, hc1, hc2, hd, hm] at h
          · by_cases hc3 : c = '"'
            · rcases hps : parseStringChars rest with _ | ⟨sChars, rest2⟩
              · simp [parseF, hsk, hc1, hc2, hc3, hps] at h
              · simp [parseF, hsk, hc1, hc2, hc3, hps] at h ⊢
                exact h
            · by_cases hc4 : c = 't'
              · rcases rest with _ | ⟨r1, _ | ⟨r2, _ | ⟨r3, r'⟩⟩⟩
                · simp [parseF, hsk, hc1, hc2, hc3, hc4] at h
                · simp [parseF, hsk, hc1, hc2, hc3, hc4] at h
                · simp [parseF, hsk, hc1, hc2, hc3, hc4] at h
                · by_cases hlit : r1 = 'r' ∧ r2 = 'u' ∧ r3 = 'e'
                  · simp [parseF, hsk, hc1, hc2, hc3, hc4, hlit] at h ⊢
                    exact h
                  · simp [parseF, hsk, hc1, hc2, hc3, hc4, hlit] at h
              · by_cases hc5 : c = 'f'
                · rcases rest with _ | ⟨r1, _ | ⟨r2, _ | ⟨r3, _ | ⟨r4, r'⟩⟩⟩⟩
                  · simp [parseF, hsk, hc1, hc2, hc3, hc4, hc5] at h
                  · simp [parseF, hsk, hc1, hc2, hc3, hc4, hc5] at h
                  · simp [parseF, hsk, hc1, hc2, hc3, hc4, hc5] at h
                  · simp [parseF, hsk, hc1, hc2, hc3, hc4, hc5] at h
                  · by_cases hlit : r1 = 'a' ∧ r2 = 'l' ∧ r3 = 's' ∧ r4 = 'e'
                    · simp [parseF, hsk, hc1, hc2, hc3, hc4, hc5, hlit] at h ⊢
                      exact h
                    · simp [parseF, hsk, hc1, hc2, hc3, hc4, hc5, hlit] at h
                · by_cases hc6 : c = 'n'
                  · rcases rest with _ | ⟨r1, _ | ⟨r2, _ | ⟨r3, r'⟩⟩⟩
                    · simp [parseF, hsk, hc1, hc2, hc3, hc4, hc5, hc6] at h
                    · simp [parseF, hsk, hc1, hc2, hc3, hc4, hc5, hc6] at h
                    · simp [parseF, hsk, hc1, hc2, hc3, hc4, hc5, hc6] at h
                    · by_cases hlit : r1 = 'u' ∧ r2 = 'l' ∧ r3 = 'l'
                      · simp [parseF, hsk, hc1, hc2, hc3, hc4, hc5, hc6, hlit] at h ⊢
                        exact h
                      · simp [parseF, hsk, hc1, hc2, hc3, hc4, hc5, hc6, hlit] at h
                  · by_cases hc7 : (c = '-' || c.isDigit) = true
                    · rcases hpn : parseNumber (c :: rest) with _ | ⟨v, r⟩
                      · simp [parseF, hsk, hc1, hc2, hc3, hc4, hc5, hc6, hc7, hpn] at h
                      · simp [parseF, hsk, hc1, hc2, hc3, hc4, hc5, hc6, hc7, hpn] at h ⊢
                        exact h
                    · simp [parseF, hsk, hc1, hc2, hc3, hc4, hc5, hc6, hc7] at h
    | members =>
      rcases hsk : skipWs cs with _ | ⟨c, rest⟩
      · simp [parseF, hsk] at h
      · by_cases hc : c = '"'
        · rcases hps : parseStringChars rest with _ | ⟨keyChars, rest2⟩
          · simp [parseF, hsk, hc, hps] at h
          · rcases hsk2 : skipWs rest2 with _ | ⟨d, rest3⟩
            · simp [parseF, hsk, hc, hps, hsk2] at h
            · by_cases hd : d = ':'
              · rcases hv : parseF fuel PMode.value rest3 with _ | pres
                · simp [parseF, hsk, hc, hps, hsk2, hd, hv] at h
                · cases pres with
                  | val v rest4 =>
                    have hv' := ih fuel'' PMode.value rest3 (PRes.val v rest4) hle' hv
                    rcases hsk3 : skipWs rest4 with _ | ⟨e, rest5⟩
                    · simp [parseF, hsk, hc, hps, hsk2, hd, hv, hsk3] at h
                    · by_cases he : e = ','
                      · rcases hm2 : parseF fuel PMode.members rest5 with _ | pres2
                        · simp [parseF, hsk, hc, hps, hsk2, hd, hv, hsk3, he, hm2] at h
                        · cases pres2 with
                          | members ms rest6 =>
                            have hm2' := ih fuel'' PMode.members rest5
                              (PRes.members ms rest6) hle' hm2
                            simp [parseF, hsk, hc, hps, hsk2, hd, hv, hv', hsk3, he,
                              hm2, hm2'] at h ⊢
                            exact h
                          | val v2 r2 =>
                            simp [parseF, hsk, hc, hps, hsk2, hd, hv, hsk3, he, hm2] at h
                          | elems es r2 =>
                            simp [parseF, hsk, hc, hps, hsk2, hd, hv, hsk3, he, hm2] at h
                      · by_cases he2 : e = '\x7d'
                        · simp [parseF, hsk, hc, hps, hsk2, hd, hv, hv', hsk3, he, he2] at h ⊢
                          exact h
                        · simp [parseF, hsk, hc, hps, hsk2, hd, hv, hsk3, he, he2] at h
                  | members ms r2 =>
                    simp [parseF, hsk, hc, hps, hsk2, hd, hv] at h
                  | elems es r2 =>
                    simp [parseF, hsk, hc, hps, hsk2, hd, hv] at h
              · simp [parseF, hsk, hc, hps, hsk2, hd] at h
        · simp [parseF, hsk, hc] at h
    | elems =>
      rcases hv : parseF fuel PMode.value cs with _ | pres
      · simp [parseF, hv] at h
      · cases pres with
        | val v rest =>
          have hv' := ih fuel'' PMode.value cs (PRes.val v rest) hle' hv
          rcases hsk : skipWs rest with _ | ⟨c, rest2⟩
          · simp [parseF, hv, hsk] at h
          · by_cases hc : c = ','
            · rcases he2 : parseF fuel PMode.elems rest2 with _ | pres2
              · simp [parseF, hv, hsk, hc, he2] at h
              · cases pres2 with
                | elems es rest3 =>
                  have he2' := ih fuel'' PMode.elems rest2 (PRes.elems es rest3) hle' he2
                  simp [parseF, hv, hv', hsk, hc, he2, he2'] at h ⊢
                  exact h
                | val v2 r2 =>
                  simp [parseF, hv, hsk, hc, he2] at h
                | members ms r2 =>
                  simp [parseF, hv, hsk, hc, he2] at h
            · by_cases hc2 : c = ']'
              · simp [parseF, hv, hv', hsk, hc, hc2] at h ⊢
                exact h
              · simp [parseF, hv, hsk, hc, hc2] at h
        | members ms r =>
          simp [parseF, hv] at h
        | elems es r =>
          simp [parseF, hv] at h

theorem parseFirst_obj_append (cs t : List Char) (kvs : List (String × Json))
    (h : parseFirst cs = some (Json.obj kvs, [])) :
    parseFirst (cs ++ t) = some (Json.obj kvs, t) := by
  rcases hp : parseF (2 * cs.length + 2) PMode.value cs with _ | pres
  · simp [parseFirst, hp] at h
  · cases pres with
    | val v rest =>
      simp [parseFirst, hp] at h
      obtain ⟨rfl, rfl⟩ := h
      have h1 := parseF_append (2 * cs.length + 2) PMode.value cs
        (PRes.val (Json.obj kvs) []) t hp trivial
      simp only [pExtend, List.nil_append] at h1
      have h2 := parseF_mono (2 * cs.length + 2) (2 * (cs ++ t).length + 2)
        PMode.value (cs ++ t) (PRes.val (Json.obj kvs) t) (by simp) h1
      simp only [List.length_append] at h2
      simp [parseFirst, h2]
    | members ms r => simp [parseFirst, hp] at h
    | elems es r => simp [parseFirst, hp] at h

/-- `Decode` never reads the bytes after the first JSON value: appending
arbitrary trailing bytes to a body that is exactly one JSON object does not
change the decoded request. -/
theorem decodeChars_obj_trailing (body t : List Char) (kvs : List (String × Json))
    (req : ChatCompletionRequest)
    (hp : parseFirst body = some (Json.obj kvs, []))
    (hu : unmarshalChatRequest (Json.obj kvs) = some req) :
    decodeChars (body ++ t) = some req := by
  have h2 := parseFirst_obj_append body t kvs hp
  simp [decodeChars, h2, hu]

/-! ## Claim theorems -/

theorem string_mk_data (s : String) : String.mk s.data = s := by
  cases s
  rfl

/-- Every frame of one streamed response: its id, created, model and
fingerprint fields are the constants fixed before the loop. -/
theorem streamFrames_mem_fields (model id : String) (created : Int)
    (response : String) :
    ∀ c ∈ streamFrames model id created response,
      c.id = id ∧ c.created = created ∧ c.model = model ∧
        c.systemFingerprint = "fp_44709d6fcb" := by
  intro c hc
  simp only [streamFrames, List.mem_cons, List.mem_append, List.mem_map,
    List.mem_singleton] at hc
  rcases hc with rfl | ⟨s, hs, rfl⟩ | rfl | h
  · exact ⟨rfl, rfl, rfl, rfl⟩
  · exact ⟨rfl, rfl, rfl, rfl⟩
  · exact ⟨rfl, rfl, rfl, rfl⟩
  · exact absurd h (List.not_mem_nil c)

/-- C1: for every reply of code-point length L the streaming responder emits
exactly one role-only frame, then exactly ⌈L/2⌉ content frames, the j-th
carrying code points 2j and 2j+1 of the reply (a single final code point when
L is odd), then exactly one terminal frame; the content deltas concatenate
back to the reply, and every content piece is made of whole code points, so
no multi-byte character is ever split. -/
theorem claim_C1_streaming_roundtrip (model id : String) (created : Int)
    (response : String) :
    streamFrames model id created response
        = roleChunk model id created ::
            ((chunkPairs response.data).map (contentChunk model id created) ++
              [stopChunk model id created])
      ∧ (chunkPairs response.data).length = (response.data.length + 1) / 2
      ∧ String.join (chunkPairs response.data) = response
      ∧ (∀ j (h : j < (chunkPairs response.data).length),
          (chunkPairs response.data).get ⟨j, h⟩
            = String.mk ((response.data.drop (2 * j)).take 2))
      ∧ (∀ s ∈ chunkPairs response.data, s ≠ "") := by
  refine ⟨rfl, chunkPairs_length response.data, ?_, chunkPairs_get response.data,
    chunkPairs_ne_empty response.data⟩
  rw [chunkPairs_join, string_mk_data]

theorem claim_C1_streaming_roundtrip_witness :
    (chunkPairs ("abc" : String).data).get ⟨1, by decide⟩
        = String.mk ((("abc" : String).data.drop 2).take 2)
      ∧ ("c" : String) ≠ "" := by
  constructor
  · exact (claim_C1_streaming_roundtrip "m" "id" 0 "abc").2.2.2.1 1 (by decide)
  · exact (claim_C1_streaming_roundtrip "m" "id" 0 "abc").2.2.2.2 "c" (by decide)

/-- C2: in every streamed response the first frame has a non-empty role,
empty content and empty finish_reason; the last frame has empty content and
role and finish_reason "stop"; every frame in between has non-empty content,
empty role and empty finish_reason. -/
theorem claim_C2_frame_shape (model id : String) (created : Int)
    (response : String) :
    (∀ first, (streamFrames model id created response).head? = some first →
        frameRole first ≠ "" ∧ frameContent first = "" ∧ frameFinish first = "")
    ∧ (∀ last, (streamFrames model id created response).getLast? = some last →
        frameContent last = "" ∧ frameRole last = "" ∧ frameFinish last = "stop")
    ∧ (∀ c ∈ ((streamFrames model id created response).drop 1).dropLast,
        frameContent c ≠ "" ∧ frameRole c = "" ∧ frameFinish c = "") := by
  refine ⟨?_, ?_, ?_⟩
  · intro first hf
    simp only [streamFrames, List.head?_cons, Option.some.injEq] at hf
    subst hf
    refine ⟨?_, rfl, rfl⟩
    intro hcon
    exact (by decide : ("assistant" : String) ≠ "") hcon
  · intro last hl
    have hshape : streamFrames model id created response
        = (roleChunk model id created ::
            (chunkPairs response.data).map (contentChunk model id created)) ++
          [stopChunk model id created] := by
      simp [streamFrames]
    rw [hshape, List.getLast?_concat] at hl
    simp only [Option.some.injEq] at hl
    subst hl
    exact ⟨rfl, rfl, rfl⟩
  · intro c hc
    have hdrop : ((streamFrames model id created response).drop 1).dropLast
        = (chunkPairs response.data).map (contentChunk model id created) := by
      simp only [streamFrames, List.drop_one, List.tail_cons]
      exact List.dropLast_concat
    rw [hdrop] at hc
    simp only [List.mem_map] at hc
    obtain ⟨s, hs, rfl⟩ := hc
    refine ⟨?_, rfl, rfl⟩
    have hne := chunkPairs_ne_empty response.data s hs
    simp only [frameContent, frameChoice, contentChunk, List.headD]
    intro hcon
    exact hne (by
      apply string_eq_of_data
      have : s.data = ("" : String).data := congrArg String.data hcon
      simpa using this)

theorem claim_C2_frame_shape_witness :
    (frameRole (roleChunk "m" "id" 0) ≠ "" ∧
      frameContent (roleChunk "m" "id" 0) = "" ∧ frameFinish (roleChunk "m" "id" 0) = "")
    ∧ (frameContent (stopChunk "m" "id" 0) = "" ∧
      frameRole (stopChunk "m" "id" 0) = "" ∧ frameFinish (stopChunk "m" "id" 0) = "stop")
    ∧ (frameContent (contentChunk "m" "id" 0 "hi") ≠ "" ∧
      frameRole (contentChunk "m" "id" 0 "hi") = "" ∧
      frameFinish (contentChunk "m" "id" 0 "hi") = "") := by
  refine ⟨?_, ?_, ?_⟩
  · exact (claim_C2_frame_shape "m" "id" 0 "hi").1 (roleChunk "m" "id" 0) rfl
  · exact (claim_C2_frame_shape "m" "id" 0 "hi").2.1 (stopChunk "m" "id" 0) (by rfl)
  · exact (claim_C2_frame_shape "m" "id" 0 "hi").2.2 (contentChunk "m" "id" 0 "hi")
      (by decide)

/-- C3: every frame of one streamed response carries the same id, the same
created timestamp, the same model and the same constant fingerprint. -/
theorem claim_C3_frame_constants (model id : String) (created : Int)
    (response : String) :
    ∀ c ∈ streamFrames model id created response,
      c.id = id ∧ c.created = created ∧ c.model = model ∧
        c.systemFingerprint = "fp_44709d6fcb" :=
  streamFrames_mem_fields model id created response

theorem claim_C3_frame_constants_witness :
    (roleChunk "m" "id" 0).id = "id" ∧ (roleChunk "m" "id" 0).created = 0 ∧
      (roleChunk "m" "id" 0).model = "m" ∧
      (roleChunk "m" "id" 0).systemFingerprint = "fp_44709d6fcb" :=
  claim_C3_frame_constants "m" "id" 0 "hi" (roleChunk "m" "id" 0)
    (by simp [streamFrames])

/-- C9: the model field of the non-streaming envelope and of every streamed
frame is the request's model string verbatim, with no validation or
normalization, including the empty model string. -/
theorem claim_C9_model_echoed (req : ChatCompletionRequest) (id : String)
    (created : Int) :
    (handleNonStreamingResponse req id created).model = req.model
    ∧ ∀ c ∈ streamFrames req.model id created (generateResponse req.messages),
        c.model = req.model := by
  refine ⟨rfl, fun c hc => ?_⟩
  exact (streamFrames_mem_fields req.model id created
    (generateResponse req.messages) c hc).2.2.1

theorem claim_C9_model_echoed_witness :
    (handleNonStreamingResponse { model := "", messages := [], stream := true }
        "id" 0).model = ""
    ∧ (roleChunk "" "id" 0).model = "" := by
  constructor
  · exact (claim_C9_model_echoed { model := "", messages := [], stream := true } "id" 0).1
  · exact (claim_C9_model_echoed { model := "", messages := [], stream := true } "id" 0).2
      (roleChunk "" "id" 0) (by simp [streamFrames])

/-- C4 counterexample: with the two `rand.Intn 10` draws uniform and
independent, the delay-then-success branch of `handleRandom` is taken on 50
of the 100 equiprobable draw pairs and the no-delay success branch on 25,
i.e. with probability 1/2 and 1/4, neither of which is (approximately) the
claimed 3/8. -/
theorem claim_C4_counterexample :
    outcomeCount RandomOutcome.delayThenSuccess = 50
    ∧ outcomeCount RandomOutcome.plainSuccess = 25
    ∧ ((50 : ℚ) / 100 ≠ 3 / 8)
    ∧ ((25 : ℚ) / 100 ≠ 3 / 8) := by
  refine ⟨by decide, by decide, by norm_num, by norm_num⟩

/-- C4 amended: the outcome distribution of the combined fault-injection
route is exactly: hard failure (HTTP 500 without delegating) with
probability 1/4, random delay followed by successful delegation with
probability 1/2, and plain successful delegation without delay with
probability 1/4. -/
theorem claim_C4_amended :
    outcomeCount RandomOutcome.hardFailure = 25
    ∧ outcomeCount RandomOutcome.delayThenSuccess = 50
    ∧ outcomeCount RandomOutcome.plainSuccess = 25
    ∧ (outcomeCount RandomOutcome.hardFailure : ℚ) / 100 = 1 / 4
    ∧ (outcomeCount RandomOutcome.delayThenSuccess : ℚ) / 100 = 1 / 2
    ∧ (outcomeCount RandomOutcome.plainSuccess : ℚ) / 100 = 1 / 4 := by
  have h1 : outcomeCount RandomOutcome.hardFailure = 25 := by decide
  have h2 : outcomeCount RandomOutcome.delayThenSuccess = 50 := by decide
  have h3 : outcomeCount RandomOutcome.plainSuccess = 25 := by decide
  refine ⟨h1, h2, h3, ?_, ?_, ?_⟩
  · rw [h1]; norm_num
  · rw [h2]; norm_num
  · rw [h3]; norm_num

/-- C5 counterexample: a GET request with the gzip content-encoding header
and a body that is not a valid gzip stream is answered with the 400
decompression error, not with 405: decompression is attempted before the
method check. -/
theorem claim_C5_counterexample :
    handleChatCompletion "GET" true (Body.raw "\x7b\x7d") "id" 0
        = HandlerResult.err 400 "Failed to decompress request body"
    ∧ handleChatCompletion "GET" true (Body.raw "\x7b\x7d") "id" 0
        ≠ HandlerResult.err 405 "Method not allowed" := by
  exact ⟨rfl, by decide⟩

/-- C5 amended: every non-POST request is answered with 405 before JSON
decoding is attempted — except that when the gzip header is set,
decompression is attempted first, and a non-POST request whose body fails to
decompress is answered 400 instead. -/
theorem claim_C5_amended (method : String) (gzipHeader : Bool) (body : Body)
    (id : String) (created : Int) (hm : method ≠ "POST") :
    handleChatCompletion method gzipHeader body id created
        = HandlerResult.err 405 "Method not allowed"
    ∨ (gzipHeader = true ∧ decompressGzip body = none ∧
        handleChatCompletion method gzipHeader body id created
          = HandlerResult.err 400 "Failed to decompress request body") := by
  cases gzipHeader with
  | false =>
    left
    simp [handleChatCompletion, bodyAfterGzip, hm]
  | true =>
    cases body with
    | gzipped payload =>
      left
      simp [handleChatCompletion, bodyAfterGzip, decompressGzip, hm]
    | raw text =>
      right
      exact ⟨rfl, rfl, rfl⟩

theorem claim_C5_amended_witness :
    handleChatCompletion "GET" false (Body.raw "\x7b\x7d") "id" 0
        = HandlerResult.err 405 "Method not allowed"
    ∨ (false = true ∧ decompressGzip (Body.raw "\x7b\x7d") = none ∧
        handleChatCompletion "GET" false (Body.raw "\x7b\x7d") "id" 0
          = HandlerResult.err 400 "Failed to decompress request body") :=
  claim_C5_amended "GET" false (Body.raw "\x7b\x7d") "id" 0 (by decide)

/-- C6 counterexample: in the wire trace of a streamed response over a
flush-capable transport, not every write is immediately followed by a flush:
the final literal `data: [DONE]` write is emitted with a plain `Write`
outside `writeChunk` and is never flushed. -/
theorem claim_C6_counterexample :
    writesFlushed (streamTrace true "gpt-4" "chatcmpl-abc" 0 (generateResponse []))
      = false := by
  rfl

/-- C6 amended: every structured chunk frame written through `writeChunk` is
immediately followed by a flush when the transport supports flushing; the
trailing literal `data: [DONE]` write is the last operation of the trace and
is not followed by a flush. -/
theorem claim_C6_amended (model id : String) (created : Int) (response : String) :
    ∃ pre, streamTrace true model id created response
        = pre ++ [WireOp.write "data: [DONE]\n\n"]
      ∧ writesFlushed pre = true := by
  refine ⟨writeChunkOps true (roleChunk model id created) ++
    ((chunkPairs response.data).flatMap fun s =>
      writeChunkOps true (contentChunk model id created s) ++ [WireOp.sleep 50]) ++
    writeChunkOps true (stopChunk model id created), ?_, ?_⟩
  · simp [streamTrace, List.append_assoc]
  · have hblocks := writesFlushed_chunk_blocks (chunkPairs response.data)
      (contentChunk model id created)
      (writeChunkOps true (stopChunk model id created))
      (by simp [writeChunkOps, writesFlushed])
    simpa [writeChunkOps, writesFlushed, List.append_assoc] using hblocks

/-- C7: a gzip-compressed body sent with the compression header decodes to
exactly the same request as the equivalent uncompressed body without the
header, and the handler behaves identically on the two. -/
theorem claim_C7_gzip_equivalence (s : String) (method id : String)
    (created : Int) (req : ChatCompletionRequest)
    (h : decodeBody s = some req) :
    decodeBody s = some req
    ∧ handleChatCompletion method true (Body.gzipped s) id created
        = handleChatCompletion method false (Body.raw s) id created :=
  ⟨h, rfl⟩

theorem claim_C7_gzip_equivalence_witness :
    decodeBody "\x7b\"stream\":false\x7d"
        = some { model := "", messages := [], stream := false }
    ∧ handleChatCompletion "POST" true (Body.gzipped "\x7b\"stream\":false\x7d") "id" 0
        = handleChatCompletion "POST" false (Body.raw "\x7b\"stream\":false\x7d") "id" 0 :=
  claim_C7_gzip_equivalence "\x7b\"stream\":false\x7d" "POST" "id" 0
    { model := "", messages := [], stream := false } (by rfl)

/-- C8: a POST request whose (decompressed) body fails to decode as a
`ChatCompletionRequest` is answered with HTTP 400 "Invalid request body" and
no stream frames are produced: processing stops at the decoding failure. -/
theorem claim_C8_bad_body_400 (gzipHeader : Bool) (body : Body) (s : String)
    (id : String) (created : Int)
    (hbody : bodyAfterGzip gzipHeader body = some s)
    (hdec : decodeBody s = none) :
    handleChatCompletion "POST" gzipHeader body id created
        = HandlerResult.err 400 "Invalid request body"
    ∧ ∀ frames, handleChatCompletion "POST" gzipHeader body id created
        ≠ HandlerResult.stream frames := by
  have h1 : handleChatCompletion "POST" gzipHeader body id created
      = HandlerResult.err 400 "Invalid request body" := by
    unfold handleChatCompletion
    rw [hbody]
    simp [hdec]
  exact ⟨h1, fun frames => by rw [h1]; simp⟩

theorem claim_C8_bad_body_400_witness :
    handleChatCompletion "POST" false (Body.raw "oops") "id" 0
        = HandlerResult.err 400 "Invalid request body"
    ∧ ∀ frames, handleChatCompletion "POST" false (Body.raw "oops") "id" 0
        ≠ HandlerResult.stream frames :=
  claim_C8_bad_body_400 false (Body.raw "oops") "oops" "id" 0 rfl (by rfl)

/-- C10: the decoder reads only the first JSON value of the body: a body that
is exactly one valid ChatRequest JSON object followed by arbitrary trailing
bytes decodes to the same request as without the trailing bytes, the handler
behaves identically, and in particular such a body is not rejected with the
400 invalid-body error. -/
theorem claim_C10_trailing_bytes (body trailing : List Char)
    (kvs : List (String × Json)) (req : ChatCompletionRequest)
    (id : String) (created : Int)
    (hp : parseFirst body = some (Json.obj kvs, []))
    (hu : unmarshalChatRequest (Json.obj kvs) = some req) :
    decodeChars (body ++ trailing) = some req
    ∧ handleChatCompletion "POST" false (Body.raw (String.mk (body ++ trailing))) id created
        = handleChatCompletion "POST" false (Body.raw (String.mk body)) id created
    ∧ handleChatCompletion "POST" false (Body.raw (String.mk (body ++ trailing))) id created
        ≠ HandlerResult.err 400 "Invalid request body" := by
  have hdec : decodeChars (body ++ trailing) = some req :=
    decodeChars_obj_trailing body trailing kvs req hp hu
  have hdec0 : decodeChars body = some req := by
    have h0 := decodeChars_obj_trailing body [] kvs req hp hu
    rwa [List.append_nil] at h0
  have hmk : ∀ l : List Char, decodeBody (String.mk l) = decodeChars l := fun l => rfl
  have e1 : handleChatCompletion "POST" false (Body.raw (String.mk (body ++ trailing)))
      id created
      = (if req.stream then
          HandlerResult.stream (streamFrames req.model id created
            (generateResponse req.messages))
        else HandlerResult.jsonResp (handleNonStreamingResponse req id created)) := by
    simp [handleChatCompletion, bodyAfterGzip, rawText, hmk, hdec]
  have e0 : handleChatCompletion "POST" false (Body.raw (String.mk body)) id created
      = (if req.stream then
          HandlerResult.stream (streamFrames req.model id created
            (generateResponse req.messages))
        else HandlerResult.jsonResp (handleNonStreamingResponse req id created)) := by
    simp [handleChatCompletion, bodyAfterGzip, rawText, hmk, hdec0]
  refine ⟨hdec, e1.trans e0.symm, ?_⟩
  rw [e1]
  cases hst : req.stream <;> simp

theorem claim_C10_trailing_bytes_witness :
    decodeChars (("\x7b\"model\":\"x\",\"messages\":[],\"stream\":true\x7d" : String).data
        ++ ("garbage" : String).data)
      = some { model := "x", messages := [], stream := true }
    ∧ handleChatCompletion "POST" false
        (Body.raw (String.mk
          (("\x7b\"model\":\"x\",\"messages\":[],\"stream\":true\x7d" : String).data
            ++ ("garbage" : String).data))) "id" 0
      = handleChatCompletion "POST" false
          (Body.raw (String.mk
            ("\x7b\"model\":\"x\",\"messages\":[],\"stream\":true\x7d" : String).data))
          "id" 0
    ∧ handleChatCompletion "POST" false
        (Body.raw (String.mk
          (("\x7b\"model\":\"x\",\"messages\":[],\"stream\":true\x7d" : String).data
            ++ ("garbage" : String).data))) "id" 0
      ≠ HandlerResult.err 400 "Invalid request body" :=
  claim_C10_trailing_bytes
    ("\x7b\"model\":\"x\",\"messages\":[],\"stream\":true\x7d" : String).data
    ("garbage" : String).data
    [("model", Json.str "x"), ("messages", Json.arr []), ("stream", Json.bool true)]
    { model := "x", messages := [], stream := true } "id" 0 (by rfl) (by rfl)

end OpenAIMock
